import Mathlib

/-!
Verification of the shorturl storage core.

This file gives a shallow embedding of the storage layer of the shorturl
repository (package `storage`, revision `part_019`, together with the
service layer of `part_016` and, where a claim cites it, the superseded
`src/internal/storage/storage.go` revision) and proves properties of the
embedded operations.

Modelling conventions:
- Go's `(value, error)` returns become product or record results carrying an
  `Option GoError`.
- The process-wide pseudo-random source (`randGen`) is threaded explicitly as
  a stream of natural numbers (`List Nat`); `rand.Intn bound` consumes one
  element and reduces it modulo `bound`, matching Go's contract that the
  result lies in `[0, bound)`.
- A Go `map[string]URLPair` is an association list without duplicate keys;
  assignment overwrites in place.
- The journal file is a list of decoded JSON lines together with a counter
  `synced` marking how long a prefix has been forced to stable storage by
  `File.Sync`, a `failing` flag injecting I/O failures, and a supply for
  `uuid.NewString`.
-/

namespace ShortURL

/-- Errors surfaced by the storage and service layers: `ErrConflict` (carrying
the existing short ID), `ErrURLDeleted`, wrapped file-system or database
errors, and `ctx.Err()` from a done context. -/
inductive GoError where
  | conflict (existingShortID : String)
  | urlDeleted
  | ioError (msg : String)
  | ctxCanceled
deriving Repr, DecidableEq

/-- `URLPair` from `part_019`: UUID, short URL, original URL, owner and the
soft-delete flag. The `DeletedFlag` field carries the JSON tag `"-"`, so it is
never serialized to the journal. -/
structure URLPair where
  uuid : String
  shortURL : String
  originalURL : String
  userID : String
  deletedFlag : Bool
deriving Repr, DecidableEq

/-- The fixed 62-symbol alphabet `letterBytes` of the code generator. -/
def letterBytes : String :=
  "abcdefghijklmnopqrstuvwxyzABCDEFGHIJKLMNOPQRSTUVWXYZ0123456789"

/-- Model of `randGen.Intn bound`: consume one element of the pseudo-random
stream and reduce it modulo `bound`; an exhausted stream yields `0`. -/
def intn (bound : Nat) : List Nat → Nat × List Nat
  | [] => (0, [])
  | x :: rest => (x % bound, rest)

/-- The loop body of `generateRandomString`, producing one character per
iteration: `b[i] = letterBytes[randGen.Intn(len(letterBytes))]`. -/
def generateChars : Nat → List Nat → List Char × List Nat
  | 0, g => ([], g)
  | n + 1, g =>
      (letterBytes.data.getD (intn letterBytes.length g).1 'a' ::
        (generateChars n (intn letterBytes.length g).2).1,
       (generateChars n (intn letterBytes.length g).2).2)

/-- `generateRandomString n`: a string of `n` characters drawn from
`letterBytes` via the pseudo-random stream. -/
def generateRandomString (n : Nat) (g : List Nat) : String × List Nat :=
  (⟨(generateChars n g).1⟩, (generateChars n g).2)

/-- `generateShortID`: `generateRandomString(8)`. -/
def generateShortID (g : List Nat) : String × List Nat :=
  generateRandomString 8 g

/-- A Go `map[string]URLPair`. -/
abbrev URLMap := List (String × URLPair)

/-- Map lookup `pair, ok := m[key]`. -/
def URLMap.find : URLMap → String → Option URLPair
  | [], _ => none
  | (k, v) :: rest, key => if k = key then some v else URLMap.find rest key

/-- Map assignment `m[key] = v`: overwrite in place, or append a new binding. -/
def URLMap.insert : URLMap → String → URLPair → URLMap
  | [], key, v => [(key, v)]
  | (k, w) :: rest, key, v =>
      if k = key then (k, v) :: rest else (k, w) :: URLMap.insert rest key v

/-- The `range`-and-filter loop shared by `GetURLsByUserID` of the memory and
file backends: all pairs owned by `userID` that are not soft-deleted. -/
def getURLsByUserIDMap (m : URLMap) (userID : String) : List URLPair :=
  (m.map Prod.snd).filter fun p => p.userID == userID && !p.deletedFlag

/-- One iteration of the `DeleteUserURLs` loop: if `shortID` is present and
owned by `userID`, set its `DeletedFlag`; otherwise leave the map unchanged. -/
def deleteOne (m : URLMap) (userID shortID : String) : URLMap :=
  match URLMap.find m shortID with
  | some pair =>
      if pair.userID = userID then
        URLMap.insert m shortID { pair with deletedFlag := true }
      else m
  | none => m

/-- The `DeleteUserURLs` loop over the whole batch of short IDs. -/
def deleteUserURLsMap (m : URLMap) (userID : String) (shortIDs : List String) : URLMap :=
  shortIDs.foldl (fun acc sid => deleteOne acc userID sid) m

/-- Result of a `CreateShortURL` call: the returned short ID and error, the
backend state after the call, and the rest of the pseudo-random stream. -/
structure CreateOut (σ : Type) where
  shortID : String
  err : Option GoError
  state : σ
  gen : List Nat
deriving Repr

/-- Result of a `GetOriginalURL` call. -/
structure GetOut where
  originalURL : String
  err : Option GoError
deriving Repr, DecidableEq

/-- `InMemoryStorage`: a single map from short code to record. -/
structure InMemoryStorage where
  urls : URLMap
deriving Repr, DecidableEq

/-- `NewInMemoryStorage`: an empty map. -/
def NewInMemoryStorage : InMemoryStorage := ⟨[]⟩

/-- `InMemoryStorage.CreateShortURL`: generate a fresh short ID and store the
record under it unconditionally; always returns a nil error. -/
def InMemoryStorage.CreateShortURL (s : InMemoryStorage) (g : List Nat)
    (userID originalURL : String) : CreateOut InMemoryStorage :=
  let shortID := (generateShortID g).1
  { shortID := shortID
    err := none
    state := ⟨URLMap.insert s.urls shortID
      { uuid := "", shortURL := shortID, originalURL := originalURL,
        userID := userID, deletedFlag := false }⟩
    gen := (generateShortID g).2 }

/-- `InMemoryStorage.DeleteUserURLs`: mark every matching, owner-matching
short ID deleted; always returns a nil error. -/
def InMemoryStorage.DeleteUserURLs (s : InMemoryStorage) (userID : String)
    (shortIDs : List String) : InMemoryStorage × Option GoError :=
  (⟨deleteUserURLsMap s.urls userID shortIDs⟩, none)

/-- `InMemoryStorage.GetOriginalURL`: empty string for an absent code,
`ErrURLDeleted` for a soft-deleted record, the original URL otherwise. -/
def InMemoryStorage.GetOriginalURL (s : InMemoryStorage) (shortID : String) : GetOut :=
  match URLMap.find s.urls shortID with
  | none => ⟨"", none⟩
  | some pair => if pair.deletedFlag then ⟨"", some .urlDeleted⟩ else ⟨pair.originalURL, none⟩

/-- `InMemoryStorage.GetURLsByUserID`: all non-deleted records of one owner. -/
def InMemoryStorage.GetURLsByUserID (s : InMemoryStorage) (userID : String) :
    List URLPair × Option GoError :=
  (getURLsByUserIDMap s.urls userID, none)

/-- One decoded newline-delimited JSON line of the journal file. `DeletedFlag`
is tagged `json:"-"` in the source, so it has no counterpart here. -/
structure FileRecord where
  uuid : String
  shortURL : String
  originalURL : String
  userID : String
deriving Repr, DecidableEq

/-- `json.Marshal` / `Encoder.Encode` of a `URLPair`: the soft-delete flag is
dropped by its `json:"-"` tag. -/
def encodeRecord (p : URLPair) : FileRecord :=
  ⟨p.uuid, p.shortURL, p.originalURL, p.userID⟩

/-- `json.Unmarshal` of a journal line into a zero-valued `URLPair`: the
soft-delete flag, absent from the JSON, keeps its zero value `false`. -/
def decodeRecord (r : FileRecord) : URLPair :=
  ⟨r.uuid, r.shortURL, r.originalURL, r.userID, false⟩

/-- The journal file and its durability state. `content` is the sequence of
lines held by the operating system's view of the file; the prefix of length
`synced` has been forced to stable storage by `File.Sync`. `failing` injects
an open/write failure; `uuidSeq` supplies `uuid.NewString`. -/
structure FileSystem where
  content : List FileRecord
  synced : Nat
  failing : Bool
  uuidSeq : Nat
deriving Repr, DecidableEq

/-- The part of the journal that survives a power failure: the synced prefix. -/
def stableContent (fs : FileSystem) : List FileRecord :=
  fs.content.take fs.synced

/-- Model of `uuid.NewString` from the deterministic supply. -/
def mkUuid (n : Nat) : String :=
  "uuid-" ++ toString n

/-- `FileStorage` (`part_019`): the in-memory index plus the journal file. -/
structure FileStorage where
  urls : URLMap
  fs : FileSystem
deriving Repr, DecidableEq

/-- Result of `FileStorage.appendToFile`: the file state after the call, the
pair as mutated through its pointer (`UUID` assigned), and the error. -/
structure AppendOut where
  fs : FileSystem
  pair : URLPair
  err : Option GoError
deriving Repr, DecidableEq

/-- `FileStorage.appendToFile` from the `part_019` revision: open the file in
append mode, assign `pair.UUID`, and encode the pair as one JSON line onto the
file. There is no `Sync` call on this path, so the written line joins
`content` but the `synced` mark does not move. On an injected failure nothing
is appended. -/
def FileStorage.appendToFile (fs : FileSystem) (pair : URLPair) : AppendOut :=
  if fs.failing then ⟨fs, pair, some (.ioError "open or write failed")⟩
  else
    let pair1 := { pair with uuid := mkUuid fs.uuidSeq }
    ⟨{ fs with content := fs.content ++ [encodeRecord pair1], uuidSeq := fs.uuidSeq + 1 },
      pair1, none⟩

/-- `FileStorage.CreateShortURL` (`part_019`): generate a fresh short ID,
append the record to the journal, and only if the append succeeded insert the
(UUID-bearing) pair into the in-memory index; on an append error return an
empty code and the error with the index untouched. -/
def FileStorage.CreateShortURL (s : FileStorage) (g : List Nat)
    (userID originalURL : String) : CreateOut FileStorage :=
  let shortID := (generateShortID g).1
  let g1 := (generateShortID g).2
  let out := FileStorage.appendToFile s.fs
    { uuid := "", shortURL := shortID, originalURL := originalURL,
      userID := userID, deletedFlag := false }
  match out.err with
  | some e => ⟨"", some e, { s with fs := out.fs }, g1⟩
  | none => ⟨shortID, none, ⟨URLMap.insert s.urls shortID out.pair, out.fs⟩, g1⟩

/-- `FileStorage.DeleteUserURLs` (`part_019`): identical loop to the memory
backend, operating purely on the in-memory index. -/
def FileStorage.DeleteUserURLs (s : FileStorage) (userID : String)
    (shortIDs : List String) : FileStorage × Option GoError :=
  ({ s with urls := deleteUserURLsMap s.urls userID shortIDs }, none)

/-- `FileStorage.GetOriginalURL` (`part_019`): reads the in-memory index. -/
def FileStorage.GetOriginalURL (s : FileStorage) (shortID : String) : GetOut :=
  match URLMap.find s.urls shortID with
  | none => ⟨"", none⟩
  | some pair => if pair.deletedFlag then ⟨"", some .urlDeleted⟩ else ⟨pair.originalURL, none⟩

/-- `FileStorage.GetURLsByUserID` (`part_019`): reads the in-memory index. -/
def FileStorage.GetURLsByUserID (s : FileStorage) (userID : String) :
    List URLPair × Option GoError :=
  (getURLsByUserIDMap s.urls userID, none)

/-- The replay loop of `loadFromFile`, folded over journal lines starting from
a given index: each well-formed line is inserted keyed by its short URL, so a
later line for the same key overwrites the earlier one. -/
def replayInto (m : URLMap) (content : List FileRecord) : URLMap :=
  content.foldl (fun acc r => URLMap.insert acc r.shortURL (decodeRecord r)) m

/-- `FileStorage.loadFromFile` (`part_019`), as run by `NewFileStorage`:
replay the whole journal in file order into the empty index. -/
def FileStorage.loadFromFile (content : List FileRecord) : URLMap :=
  replayInto [] content

/-- A fresh `FileStorage` over an empty journal file (what `NewFileStorage`
yields when the configured file does not exist yet). -/
def initFileStorage : FileStorage :=
  ⟨[], ⟨[], 0, false, 0⟩⟩

/-- Run a sequence of `(userID, originalURL)` creations against the file
backend, stopping with `none` if any creation returns an error. -/
def runCreates : List (String × String) → FileStorage → List Nat → Option FileStorage
  | [], s, _ => some s
  | uo :: rest, s, g =>
      let r := FileStorage.CreateShortURL s g uo.1 uo.2
      match r.err with
      | none => runCreates rest r.state r.gen
      | some _ => none

/-- `appendToFile` from the superseded `src/internal/storage/storage.go`
revision: marshal the pair (assigning a fresh UUID), write the line with a
trailing newline, and call `file.Sync()` before returning, so on success the
whole file content is on stable storage. -/
def FileStorageHead.appendToFile (fs : FileSystem)
    (userID shortURL originalURL : String) : FileSystem × Option GoError :=
  if fs.failing then (fs, some (.ioError "open, write or sync failed"))
  else
    let rec1 := encodeRecord
      { uuid := mkUuid fs.uuidSeq, shortURL := shortURL,
        originalURL := originalURL, userID := userID, deletedFlag := false }
    ({ fs with content := fs.content ++ [rec1],
               synced := (fs.content ++ [rec1]).length,
               uuidSeq := fs.uuidSeq + 1 }, none)

/-- One row of the `urls` table of the relational backend:
`short_url PRIMARY KEY, original_url NOT NULL UNIQUE, user_id, is_deleted`. -/
structure DBRow where
  shortURL : String
  originalURL : String
  userID : String
  isDeleted : Bool
deriving Repr, DecidableEq

/-- The `urls` table, in insertion order. The table invariants (primary key on
`short_url`, uniqueness of `original_url`) are maintained by the operations. -/
abbrev Database := List DBRow

/-- `DatabaseStorage.CreateShortURL` (`part_019`): inside one transaction run
`INSERT ... ON CONFLICT (original_url) DO NOTHING`. If a row for the URL
already exists, zero rows are affected and the existing `short_url` is read
back and returned together with `ErrConflict`. Otherwise the insert succeeds
and the candidate is returned — unless the fresh candidate collides with an
existing primary key `short_url`, which the statement does not handle and
which therefore surfaces as a database error. -/
def DatabaseStorage.CreateShortURL (db : Database) (g : List Nat)
    (userID originalURL : String) : CreateOut Database :=
  let candidateShortID := (generateShortID g).1
  let g1 := (generateShortID g).2
  match db.find? (fun r => r.originalURL == originalURL) with
  | some row => ⟨row.shortURL, some (.conflict row.shortURL), db, g1⟩
  | none =>
      if db.any (fun r => r.shortURL == candidateShortID) then
        ⟨"", some (.ioError "unique violation on short_url"), db, g1⟩
      else
        ⟨candidateShortID, none,
          db ++ [⟨candidateShortID, originalURL, userID, false⟩], g1⟩

/-- `deleteTask` from the service layer (`part_016`). -/
structure DeleteTask where
  userID : String
  shortIDs : List String
deriving Repr, DecidableEq

/-- The capacity of the buffered delete channel:
`make(chan deleteTask, 100)` in `NewURLService`. -/
def deleteChCapacity : Nat := 100

/-- The delete-queue component of `URLService`: the contents of the buffered
channel `deleteCh`, front of the list first. -/
structure URLService where
  deleteCh : List DeleteTask
deriving Repr, DecidableEq

/-- `NewURLService`: the buffered channel starts empty. -/
def NewURLService : URLService := ⟨[]⟩

/-- The possible outcomes of the `select` in `URLService.DeleteURLs`: either
the send on the buffered channel is ready — the channel holds fewer than
`deleteChCapacity` tasks — and the task is enqueued with a nil error, or the
caller's context is done and `ctx.Err()` is returned with the queue
untouched. When the channel is full and the context is live, the call blocks
and no outcome is produced yet. -/
inductive DeleteURLsOutcome (s : URLService) (ctxDone : Bool) (task : DeleteTask) :
    URLService → Option GoError → Prop
  | enqueued (h : s.deleteCh.length < deleteChCapacity) :
      DeleteURLsOutcome s ctxDone task ⟨s.deleteCh ++ [task]⟩ none
  | canceled (h : ctxDone = true) :
      DeleteURLsOutcome s ctxDone task s (some .ctxCanceled)

/-- Delete-queue states reachable from a fresh `URLService` under the
producer (`DeleteURLs`) and the single consumer (`deleteWorker` receiving the
task at the front of the channel). -/
inductive QueueReachable : URLService → Prop
  | init : QueueReachable NewURLService
  | produce {s s' : URLService} {d : Bool} {t : DeleteTask} {r : Option GoError} :
      QueueReachable s → DeleteURLsOutcome s d t s' r → QueueReachable s'
  | consume {t : DeleteTask} {q : List DeleteTask} :
      QueueReachable ⟨t :: q⟩ → QueueReachable ⟨q⟩

/-- Well-formedness of a backend index, maintained by all operations: every
record is keyed by its own short URL, and keys are not duplicated (a Go map
cannot hold two bindings for one key). -/
def WFMap (m : URLMap) : Prop :=
  (∀ pr ∈ m, pr.2.shortURL = pr.1) ∧ (m.map Prod.fst).Nodup

/-! Basic lemmas about the association-list map. -/

theorem URLMap.find_insert (m : URLMap) (k : String) (v : URLPair) (key : String) :
    URLMap.find (URLMap.insert m k v) key =
      if k = key then some v else URLMap.find m key := by
  induction m with
  | nil => by_cases h : k = key <;> simp [URLMap.insert, URLMap.find, h]
  | cons hd tl ih =>
      obtain ⟨k', w⟩ := hd
      by_cases h1 : k' = k
      · subst h1
        by_cases h2 : k' = key <;> simp [URLMap.insert, URLMap.find, h2]
      · by_cases h2 : k' = key
        · subst h2
          have h3 : ¬k = k' := fun h => h1 h.symm
          simp [URLMap.insert, URLMap.find, h1, h3]
        · simp [URLMap.insert, URLMap.find, h1, h2, ih]

theorem URLMap.mem_of_find {m : URLMap} {k : String} {v : URLPair}
    (h : URLMap.find m k = some v) : (k, v) ∈ m := by
  induction m with
  | nil => simp [URLMap.find] at h
  | cons hd tl ih =>
      obtain ⟨k', w⟩ := hd
      by_cases h1 : k' = k
      · subst h1
        simp [URLMap.find] at h
        simp [h]
      · simp [URLMap.find, h1] at h
        exact List.mem_cons_of_mem _ (ih h)

theorem URLMap.find_of_mem {m : URLMap} (hnd : (m.map Prod.fst).Nodup)
    {k : String} {v : URLPair} (hmem : (k, v) ∈ m) : URLMap.find m k = some v := by
  induction m with
  | nil => simp at hmem
  | cons hd tl ih =>
      obtain ⟨k', w⟩ := hd
      simp only [List.map_cons, List.nodup_cons] at hnd
      rcases List.mem_cons.mp hmem with h | h
      · obtain ⟨rfl, rfl⟩ := Prod.mk.injEq .. ▸ h
        simp [URLMap.find]
      · have hne : k' ≠ k := by
          intro e
          subst e
          exact hnd.1 (List.mem_map.mpr ⟨(k', v), h, rfl⟩)
        simp [URLMap.find, hne]
        exact ih hnd.2 h

theorem URLMap.mem_insert {m : URLMap} {k : String} {v : URLPair}
    {pr : String × URLPair} (h : pr ∈ URLMap.insert m k v) : pr = (k, v) ∨ pr ∈ m := by
  induction m with
  | nil => simpa [URLMap.insert] using h
  | cons hd tl ih =>
      obtain ⟨k', w⟩ := hd
      by_cases h1 : k' = k
      · subst h1
        simp [URLMap.insert] at h
        rcases h with h | h
        · exact Or.inl (by simp [h])
        · exact Or.inr (List.mem_cons_of_mem _ h)
      · simp [URLMap.insert, h1] at h
        rcases h with h | h
        · exact Or.inr (by simp [h])
        · rcases ih h with h2 | h2
          · exact Or.inl h2
          · exact Or.inr (List.mem_cons_of_mem _ h2)

theorem URLMap.map_fst_insert_some {m : URLMap} {k : String} {w : URLPair}
    (h : URLMap.find m k = some w) (v : URLPair) :
    (URLMap.insert m k v).map Prod.fst = m.map Prod.fst := by
  induction m with
  | nil => simp [URLMap.find] at h
  | cons hd tl ih =>
      obtain ⟨k', u⟩ := hd
      by_cases h1 : k' = k
      · subst h1
        simp [URLMap.insert]
      · simp [URLMap.find, h1] at h
        simp [URLMap.insert, h1, ih h]

theorem URLMap.map_fst_insert_none {m : URLMap} {k : String}
    (h : URLMap.find m k = none) (v : URLPair) :
    (URLMap.insert m k v).map Prod.fst = m.map Prod.fst ++ [k] := by
  induction m with
  | nil => simp [URLMap.insert]
  | cons hd tl ih =>
      obtain ⟨k', u⟩ := hd
      by_cases h1 : k' = k
      · subst h1
        simp [URLMap.find] at h
      · simp [URLMap.find, h1] at h
        simp [URLMap.insert, h1, ih h]

theorem URLMap.not_mem_keys_of_find_none {m : URLMap} {k : String}
    (h : URLMap.find m k = none) : k ∉ m.map Prod.fst := by
  induction m with
  | nil => simp
  | cons hd tl ih =>
      obtain ⟨k', u⟩ := hd
      by_cases h1 : k' = k
      · subst h1
        simp [URLMap.find] at h
      · simp [URLMap.find, h1] at h
        simp [ih h, Ne.symm h1]

theorem URLMap.length_insert_none {m : URLMap} {k : String}
    (h : URLMap.find m k = none) (v : URLPair) :
    (URLMap.insert m k v).length = m.length + 1 := by
  have := URLMap.map_fst_insert_none h v
  have hlen := congrArg List.length this
  simpa using hlen

theorem WFMap_insert {m : URLMap} (hwf : WFMap m) {k : String} {v : URLPair}
    (hv : v.shortURL = k) : WFMap (URLMap.insert m k v) := by
  constructor
  · intro pr hpr
    rcases URLMap.mem_insert hpr with h | h
    · subst h
      exact hv
    · exact hwf.1 pr h
  · cases hf : URLMap.find m k with
    | some w => rw [URLMap.map_fst_insert_some hf]; exact hwf.2
    | none =>
        rw [URLMap.map_fst_insert_none hf]
        refine List.Nodup.append hwf.2 (List.nodup_singleton k) ?_
        intro a ha hb
        simp at hb
        subst hb
        exact URLMap.not_mem_keys_of_find_none hf ha

/-! Lemmas about the `DeleteUserURLs` loop. -/

theorem deleteOne_eq_of_find_none {m : URLMap} {o sid : String}
    (h : URLMap.find m sid = none) : deleteOne m o sid = m := by
  unfold deleteOne
  rw [h]

theorem deleteOne_eq_of_find_some {m : URLMap} {o sid : String} {pair : URLPair}
    (h : URLMap.find m sid = some pair) :
    deleteOne m o sid =
      if pair.userID = o then URLMap.insert m sid { pair with deletedFlag := true }
      else m := by
  unfold deleteOne
  rw [h]

theorem find_deleteOne_other {m : URLMap} (o sid c : String) (h : sid ≠ c) :
    URLMap.find (deleteOne m o sid) c = URLMap.find m c := by
  unfold deleteOne
  cases hf : URLMap.find m sid with
  | none => rfl
  | some pair =>
      by_cases ho : pair.userID = o <;> simp [ho, URLMap.find_insert, h]

theorem find_deleteOne_self {m : URLMap} {c : String} {pair : URLPair} {o : String}
    (h : URLMap.find m c = some pair) (ho : pair.userID = o) :
    URLMap.find (deleteOne m o c) c = some { pair with deletedFlag := true } := by
  unfold deleteOne
  rw [h]
  simp [ho, URLMap.find_insert]

theorem find_deleteOne_foreign {m : URLMap} {c : String} {pair : URLPair} (o sid : String)
    (h : URLMap.find m c = some pair) (ho : pair.userID ≠ o) :
    URLMap.find (deleteOne m o sid) c = some pair := by
  by_cases hsc : sid = c
  · subst hsc
    unfold deleteOne
    rw [h]
    simp [ho, h]
  · rw [find_deleteOne_other o sid c hsc]
    exact h

theorem find_deleteOne_deleted {m : URLMap} {c : String} {pair : URLPair} (o sid : String)
    (h : URLMap.find m c = some pair) (hdel : pair.deletedFlag = true) :
    URLMap.find (deleteOne m o sid) c = some pair := by
  by_cases hsc : sid = c
  · subst hsc
    rw [deleteOne_eq_of_find_some h]
    by_cases ho : pair.userID = o
    · have hpair : { pair with deletedFlag := true } = pair := by
        cases pair
        simp_all
      rw [if_pos ho, hpair, URLMap.find_insert]
      simp
    · rw [if_neg ho]
      exact h
  · rw [find_deleteOne_other o sid c hsc]
    exact h

theorem find_deleteOne_none {m : URLMap} {c : String} (o sid : String)
    (h : URLMap.find m c = none) :
    URLMap.find (deleteOne m o sid) c = none := by
  by_cases hsc : sid = c
  · subst hsc
    rw [deleteOne_eq_of_find_none h]
    exact h
  · rw [find_deleteOne_other o sid c hsc]
    exact h

theorem deleteUserURLsMap_cons (m : URLMap) (o sid : String) (rest : List String) :
    deleteUserURLsMap m o (sid :: rest) = deleteUserURLsMap (deleteOne m o sid) o rest := rfl

theorem find_deleteMap_foreign {m : URLMap} {c : String} {pair : URLPair} (o : String)
    (ids : List String) (h : URLMap.find m c = some pair) (ho : pair.userID ≠ o) :
    URLMap.find (deleteUserURLsMap m o ids) c = some pair := by
  induction ids generalizing m with
  | nil => exact h
  | cons sid rest ih =>
      rw [deleteUserURLsMap_cons]
      exact ih (find_deleteOne_foreign o sid h ho)

theorem find_deleteMap_deleted {m : URLMap} {c : String} {pair : URLPair} (o : String)
    (ids : List String) (h : URLMap.find m c = some pair) (hdel : pair.deletedFlag = true) :
    URLMap.find (deleteUserURLsMap m o ids) c = some pair := by
  induction ids generalizing m with
  | nil => exact h
  | cons sid rest ih =>
      rw [deleteUserURLsMap_cons]
      exact ih (find_deleteOne_deleted o sid h hdel)

theorem find_deleteMap_none {m : URLMap} {c : String} (o : String) (ids : List String)
    (h : URLMap.find m c = none) :
    URLMap.find (deleteUserURLsMap m o ids) c = none := by
  induction ids generalizing m with
  | nil => exact h
  | cons sid rest ih =>
      rw [deleteUserURLsMap_cons]
      exact ih (find_deleteOne_none o sid h)

theorem WFMap_deleteOne {m : URLMap} (hwf : WFMap m) (o sid : String) :
    WFMap (deleteOne m o sid) := by
  unfold deleteOne
  cases hf : URLMap.find m sid with
  | none => exact hwf
  | some pair =>
      by_cases ho : pair.userID = o
      · have hk : pair.shortURL = sid := hwf.1 (sid, pair) (URLMap.mem_of_find hf)
        simp only [ho, if_true]
        exact WFMap_insert hwf (by simpa using hk)
      · simp only [ho, if_false]
        exact hwf

theorem WFMap_deleteMap {m : URLMap} (hwf : WFMap m) (o : String) (ids : List String) :
    WFMap (deleteUserURLsMap m o ids) := by
  induction ids generalizing m with
  | nil => exact hwf
  | cons sid rest ih =>
      rw [deleteUserURLsMap_cons]
      exact ih (WFMap_deleteOne hwf o sid)

theorem not_listed_of_deleted {m : URLMap} (hwf : WFMap m) {c : String} {pair : URLPair}
    (h : URLMap.find m c = some pair) (hdel : pair.deletedFlag = true) (o : String) :
    ∀ p ∈ getURLsByUserIDMap m o, p.shortURL ≠ c := by
  intro p hp hpc
  unfold getURLsByUserIDMap at hp
  rw [List.mem_filter] at hp
  obtain ⟨hmem, hcond⟩ := hp
  rw [List.mem_map] at hmem
  obtain ⟨⟨k, q⟩, hkq, rfl⟩ := hmem
  have hk : q.shortURL = k := hwf.1 (k, q) hkq
  have hkc : k = c := by rw [← hk, hpc]
  subst hkc
  have hfq : URLMap.find m k = some q := URLMap.find_of_mem hwf.2 hkq
  rw [h] at hfq
  cases hfq
  simp [hdel] at hcond

/-! Lemmas about journal replay and the file backend. -/

theorem replayInto_cons (m : URLMap) (r : FileRecord) (rest : List FileRecord) :
    replayInto m (r :: rest) =
      replayInto (URLMap.insert m r.shortURL (decodeRecord r)) rest := rfl

theorem replayInto_append (m : URLMap) (c1 c2 : List FileRecord) :
    replayInto m (c1 ++ c2) = replayInto (replayInto m c1) c2 := by
  simp [replayInto, List.foldl_append]

theorem decode_encode {p : URLPair} (h : p.deletedFlag = false) :
    decodeRecord (encodeRecord p) = p := by
  cases p
  simp_all [encodeRecord, decodeRecord]

theorem loadFromFile_snoc (content : List FileRecord) (r : FileRecord) :
    FileStorage.loadFromFile (content ++ [r]) =
      URLMap.insert (FileStorage.loadFromFile content) r.shortURL (decodeRecord r) := by
  unfold FileStorage.loadFromFile
  rw [replayInto_append]
  rfl

theorem find_replayInto_not_mem {content : List FileRecord} {c : String}
    (h : c ∉ content.map FileRecord.shortURL) (m : URLMap) :
    URLMap.find (replayInto m content) c = URLMap.find m c := by
  induction content generalizing m with
  | nil => rfl
  | cons r rest ih =>
      simp only [List.map_cons, List.mem_cons, not_or] at h
      rw [replayInto_cons, ih h.2, URLMap.find_insert, if_neg (Ne.symm h.1)]

theorem length_replayInto (content : List FileRecord) :
    ∀ (m : URLMap), (content.map FileRecord.shortURL).Nodup →
      (∀ r ∈ content, URLMap.find m r.shortURL = none) →
      (replayInto m content).length = m.length + content.length := by
  induction content with
  | nil =>
      intro m _ _
      simp [replayInto]
  | cons r rest ih =>
      intro m hnd hnone
      simp only [List.map_cons, List.nodup_cons] at hnd
      rw [replayInto_cons]
      have h0 : URLMap.find m r.shortURL = none := hnone r (by simp)
      have hrest : ∀ r' ∈ rest,
          URLMap.find (URLMap.insert m r.shortURL (decodeRecord r)) r'.shortURL = none := by
        intro r' hr'
        rw [URLMap.find_insert, if_neg]
        · exact hnone r' (by simp [hr'])
        · intro e
          exact hnd.1 (List.mem_map.mpr ⟨r', hr', e.symm⟩)
      rw [ih _ hnd.2 hrest, URLMap.length_insert_none h0]
      simp only [List.length_cons]
      omega

/-! Lemmas about the code generator. -/

theorem intn_lt (bound : Nat) (hb : 0 < bound) (g : List Nat) : (intn bound g).1 < bound := by
  cases g with
  | nil => simpa [intn] using hb
  | cons x rest => simpa [intn] using Nat.mod_lt x hb

theorem getD_mem : ∀ (l : List Char) (i : Nat) (d : Char), i < l.length → l.getD i d ∈ l
  | a :: l, 0, d, _ => by simp
  | a :: l, i + 1, d, h => by
      rw [List.getD_cons_succ]
      exact List.mem_cons_of_mem a (getD_mem l i d (by simpa using h))

theorem generateChars_spec (n : Nat) (g : List Nat) :
    (generateChars n g).1.length = n ∧ ∀ c ∈ (generateChars n g).1, c ∈ letterBytes.data := by
  induction n generalizing g with
  | zero => simp [generateChars]
  | succ k ih =>
      constructor
      · simp [generateChars, (ih _).1]
      · intro c hc
        simp only [generateChars, List.mem_cons] at hc
        rcases hc with rfl | hc
        · exact getD_mem _ _ _ (intn_lt letterBytes.length (by decide) g)
        · exact (ih _).2 c hc

/-! Inversion lemmas for `FileStorage.CreateShortURL`. -/

theorem fileCreate_of_failing {s : FileStorage} {g : List Nat} {userID originalURL : String}
    (hf : s.fs.failing = true) :
    FileStorage.CreateShortURL s g userID originalURL =
      ⟨"", some (.ioError "open or write failed"), s, (generateShortID g).2⟩ := by
  simp [FileStorage.CreateShortURL, FileStorage.appendToFile, hf]

theorem fileCreate_of_not_failing {s : FileStorage} {g : List Nat} {userID originalURL : String}
    (hf : s.fs.failing = false) :
    FileStorage.CreateShortURL s g userID originalURL =
      { shortID := (generateShortID g).1
        err := none
        state :=
          ⟨URLMap.insert s.urls (generateShortID g).1
              { uuid := mkUuid s.fs.uuidSeq, shortURL := (generateShortID g).1,
                originalURL := originalURL, userID := userID, deletedFlag := false },
            { s.fs with
                content := s.fs.content ++
                  [encodeRecord
                    { uuid := mkUuid s.fs.uuidSeq, shortURL := (generateShortID g).1,
                      originalURL := originalURL, userID := userID, deletedFlag := false }],
                uuidSeq := s.fs.uuidSeq + 1 }⟩
        gen := (generateShortID g).2 } := by
  simp [FileStorage.CreateShortURL, FileStorage.appendToFile, hf]

theorem runCreates_cons (uo : String × String) (rest : List (String × String))
    (s : FileStorage) (g : List Nat) :
    runCreates (uo :: rest) s g =
      match (FileStorage.CreateShortURL s g uo.1 uo.2).err with
      | none => runCreates rest (FileStorage.CreateShortURL s g uo.1 uo.2).state
          (FileStorage.CreateShortURL s g uo.1 uo.2).gen
      | some _ => none := rfl

theorem runCreates_inv : ∀ (ops : List (String × String)) {s s' : FileStorage} {g : List Nat},
    runCreates ops s g = some s' →
    FileStorage.loadFromFile s.fs.content = s.urls →
    FileStorage.loadFromFile s'.fs.content = s'.urls ∧
      s'.fs.content.length = s.fs.content.length + ops.length := by
  intro ops
  induction ops with
  | nil =>
      intro s s' g hrun hinv
      simp [runCreates] at hrun
      subst hrun
      simpa using hinv
  | cons uo rest ih =>
      intro s s' g hrun hinv
      by_cases hf : s.fs.failing
      · rw [runCreates_cons, fileCreate_of_failing hf] at hrun
        simp at hrun
      · rw [runCreates_cons,
          fileCreate_of_not_failing (eq_false_of_ne_true hf)] at hrun
        simp only [] at hrun
        have hinv1 : FileStorage.loadFromFile
            (s.fs.content ++
              [encodeRecord
                { uuid := mkUuid s.fs.uuidSeq, shortURL := (generateShortID g).1,
                  originalURL := uo.2, userID := uo.1, deletedFlag := false }]) =
            URLMap.insert s.urls (generateShortID g).1
              { uuid := mkUuid s.fs.uuidSeq, shortURL := (generateShortID g).1,
                originalURL := uo.2, userID := uo.1, deletedFlag := false } := by
          rw [loadFromFile_snoc, hinv, decode_encode rfl]
          rfl
        have hres := ih hrun hinv1
        refine ⟨hres.1, ?_⟩
        rw [hres.2]
        simp
        omega

/-! Inversion lemmas for the relational backend. -/

theorem dbCreate_insert {db : Database} {g : List Nat} {userID originalURL : String}
    (hno : ∀ r ∈ db, r.originalURL ≠ originalURL)
    (hpk : ∀ r ∈ db, r.shortURL ≠ (generateShortID g).1) :
    DatabaseStorage.CreateShortURL db g userID originalURL =
      ⟨(generateShortID g).1, none,
        db ++ [⟨(generateShortID g).1, originalURL, userID, false⟩],
        (generateShortID g).2⟩ := by
  have h1 : db.find? (fun r => r.originalURL == originalURL) = none :=
    List.find?_eq_none.mpr fun r hr => by simp [hno r hr]
  have h2 : db.any (fun r => r.shortURL == (generateShortID g).1) = false := by
    simp only [List.any_eq_false]
    intro r hr
    simp [hpk r hr]
  simp [DatabaseStorage.CreateShortURL, h1, h2]

theorem dbCreate_conflict {db : Database} {g : List Nat} {userID originalURL : String}
    {row : DBRow} (h : db.find? (fun r => r.originalURL == originalURL) = some row) :
    DatabaseStorage.CreateShortURL db g userID originalURL =
      ⟨row.shortURL, some (.conflict row.shortURL), db, (generateShortID g).2⟩ := by
  simp [DatabaseStorage.CreateShortURL, h]

/-! The claims. -/

/-- C9: every short code produced by the code generator is a string of length
exactly 8 whose characters all belong to the fixed 62-symbol alphanumeric
alphabet `letterBytes` (62 distinct symbols), for every state of the
pseudo-random source; the generator itself guarantees nothing about
uniqueness across invocations. -/
theorem claim_C9 :
    (letterBytes.data.length = 62 ∧ letterBytes.data.Nodup) ∧
    ∀ g : List Nat,
      (generateShortID g).1.data.length = 8 ∧
      ∀ c ∈ (generateShortID g).1.data, c ∈ letterBytes.data := by
  refine ⟨⟨by decide, by decide⟩, ?_⟩
  intro g
  exact ⟨(generateChars_spec 8 g).1, (generateChars_spec 8 g).2⟩

/-- Witness for C9: a concrete stream yields the 8-character code `"bbbbbbbb"`,
whose character lies in the alphabet. -/
theorem claim_C9_witness :
    (generateShortID (List.replicate 8 1)).1.data.length = 8 ∧ 'b' ∈ letterBytes.data :=
  ⟨(claim_C9.2 (List.replicate 8 1)).1,
   (claim_C9.2 (List.replicate 8 1)).2 'b' (by decide)⟩

/-- C2: for every owner and URL, if `CreateShortURL` succeeds returning a code
(no conflict, no error), an immediately following `GetOriginalURL` on that
code returns the URL — unconditionally for the memory backend (whose create
never fails), and on the success path of the file backend. -/
theorem claim_C2 :
    (∀ (s : InMemoryStorage) (g : List Nat) (userID originalURL : String),
      (InMemoryStorage.CreateShortURL s g userID originalURL).err = none ∧
      InMemoryStorage.GetOriginalURL
        (InMemoryStorage.CreateShortURL s g userID originalURL).state
        (InMemoryStorage.CreateShortURL s g userID originalURL).shortID =
        ⟨originalURL, none⟩) ∧
    (∀ (s : FileStorage) (g : List Nat) (userID originalURL : String),
      (FileStorage.CreateShortURL s g userID originalURL).err = none →
      FileStorage.GetOriginalURL
        (FileStorage.CreateShortURL s g userID originalURL).state
        (FileStorage.CreateShortURL s g userID originalURL).shortID =
        ⟨originalURL, none⟩) := by
  constructor
  · intro s g userID originalURL
    refine ⟨rfl, ?_⟩
    simp [InMemoryStorage.CreateShortURL, InMemoryStorage.GetOriginalURL, URLMap.find_insert]
  · intro s g userID originalURL h
    by_cases hf : s.fs.failing
    · rw [fileCreate_of_failing hf] at h
      simp at h
    · rw [fileCreate_of_not_failing (eq_false_of_ne_true hf)]
      simp [FileStorage.GetOriginalURL, URLMap.find_insert]

/-- Witness for C2: concrete round trips on both backends. -/
theorem claim_C2_witness :
    InMemoryStorage.GetOriginalURL
      (InMemoryStorage.CreateShortURL NewInMemoryStorage (List.replicate 8 0) "u1"
        "https://example.org/a").state
      (InMemoryStorage.CreateShortURL NewInMemoryStorage (List.replicate 8 0) "u1"
        "https://example.org/a").shortID = ⟨"https://example.org/a", none⟩ ∧
    FileStorage.GetOriginalURL
      (FileStorage.CreateShortURL initFileStorage (List.replicate 8 0) "u1"
        "https://example.org/a").state
      (FileStorage.CreateShortURL initFileStorage (List.replicate 8 0) "u1"
        "https://example.org/a").shortID = ⟨"https://example.org/a", none⟩ :=
  ⟨(claim_C2.1 NewInMemoryStorage (List.replicate 8 0) "u1" "https://example.org/a").2,
   claim_C2.2 initFileStorage (List.replicate 8 0) "u1" "https://example.org/a" (by decide)⟩

/-- C10: if the journal append of the file backend fails, `CreateShortURL`
returns the error together with an empty code, and both the in-memory index
and the journal file are exactly as they were before the call. -/
theorem claim_C10 (s : FileStorage) (g : List Nat) (userID originalURL : String)
    (e : GoError)
    (h : (FileStorage.CreateShortURL s g userID originalURL).err = some e) :
    (FileStorage.CreateShortURL s g userID originalURL).shortID = "" ∧
    (FileStorage.CreateShortURL s g userID originalURL).state.urls = s.urls ∧
    (FileStorage.CreateShortURL s g userID originalURL).state.fs = s.fs := by
  by_cases hf : s.fs.failing
  · rw [fileCreate_of_failing hf]
    exact ⟨rfl, rfl, rfl⟩
  · rw [fileCreate_of_not_failing (eq_false_of_ne_true hf)] at h
    simp at h

/-- Witness for C10 on a concrete failing journal. -/
theorem claim_C10_witness :
    (FileStorage.CreateShortURL ⟨[], ⟨[], 0, true, 0⟩⟩ (List.replicate 8 0) "u1"
      "https://example.org/a").shortID = "" ∧
    (FileStorage.CreateShortURL ⟨[], ⟨[], 0, true, 0⟩⟩ (List.replicate 8 0) "u1"
      "https://example.org/a").state.urls = ([] : URLMap) ∧
    (FileStorage.CreateShortURL ⟨[], ⟨[], 0, true, 0⟩⟩ (List.replicate 8 0) "u1"
      "https://example.org/a").state.fs = ⟨[], 0, true, 0⟩ :=
  claim_C10 ⟨[], ⟨[], 0, true, 0⟩⟩ (List.replicate 8 0) "u1" "https://example.org/a"
    (.ioError "open or write failed") (by decide)

/-- C3: after owner `o` batch-deletes a code it owns on the memory backend,
the call reports success, `GetOriginalURL` on that code returns the `Deleted`
condition (not not-found, not the URL), and the code no longer appears among
the short URLs listed for `o`. The well-formedness hypothesis states what the
backend maintains: records are keyed by their own short URL, keys unique. -/
theorem claim_C3 (s : InMemoryStorage) (o c : String) (pair : URLPair)
    (hwf : WFMap s.urls) (hfind : URLMap.find s.urls c = some pair)
    (howner : pair.userID = o) :
    (InMemoryStorage.DeleteUserURLs s o [c]).2 = none ∧
    InMemoryStorage.GetOriginalURL (InMemoryStorage.DeleteUserURLs s o [c]).1 c =
      ⟨"", some .urlDeleted⟩ ∧
    ∀ p ∈ (InMemoryStorage.GetURLsByUserID (InMemoryStorage.DeleteUserURLs s o [c]).1 o).1,
      p.shortURL ≠ c := by
  have hdone : URLMap.find (deleteUserURLsMap s.urls o [c]) c =
      some { pair with deletedFlag := true } := find_deleteOne_self hfind howner
  refine ⟨rfl, ?_, ?_⟩
  · simp [InMemoryStorage.DeleteUserURLs, InMemoryStorage.GetOriginalURL, hdone]
  · intro p hp
    exact not_listed_of_deleted (WFMap_deleteMap hwf o [c]) hdone rfl o p hp

/-- Witness for C3 on a concrete one-record store. -/
theorem claim_C3_witness :
    (InMemoryStorage.DeleteUserURLs ⟨[("c1", ⟨"", "c1", "https://example.org/a", "u1", false⟩)]⟩
      "u1" ["c1"]).2 = none ∧
    InMemoryStorage.GetOriginalURL
      (InMemoryStorage.DeleteUserURLs ⟨[("c1", ⟨"", "c1", "https://example.org/a", "u1", false⟩)]⟩
        "u1" ["c1"]).1 "c1" = ⟨"", some .urlDeleted⟩ ∧
    ∀ p ∈ (InMemoryStorage.GetURLsByUserID
      (InMemoryStorage.DeleteUserURLs ⟨[("c1", ⟨"", "c1", "https://example.org/a", "u1", false⟩)]⟩
        "u1" ["c1"]).1 "u1").1, p.shortURL ≠ "c1" :=
  claim_C3 ⟨[("c1", ⟨"", "c1", "https://example.org/a", "u1", false⟩)]⟩ "u1" "c1"
    ⟨"", "c1", "https://example.org/a", "u1", false⟩ ⟨by decide, by decide⟩ (by decide) rfl

/-- C7: `DeleteUserURLs` silently skips codes that are absent or owned by a
different owner and still reports success; a foreign-owned record keeps every
field (deleted flag included) and, if it was live, stays retrievable via
`GetOriginalURL`. Holds for the memory and file backends, whose delete loops
are identical and purely in-memory. -/
theorem claim_C7 :
    (∀ (s : InMemoryStorage) (o : String) (codes : List String) (c : String) (pair : URLPair),
      URLMap.find s.urls c = some pair → pair.userID ≠ o →
      (InMemoryStorage.DeleteUserURLs s o codes).2 = none ∧
      URLMap.find (InMemoryStorage.DeleteUserURLs s o codes).1.urls c = some pair ∧
      (pair.deletedFlag = false →
        InMemoryStorage.GetOriginalURL (InMemoryStorage.DeleteUserURLs s o codes).1 c =
          ⟨pair.originalURL, none⟩)) ∧
    (∀ (s : InMemoryStorage) (o : String) (codes : List String) (c : String),
      URLMap.find s.urls c = none →
      (InMemoryStorage.DeleteUserURLs s o codes).2 = none ∧
      URLMap.find (InMemoryStorage.DeleteUserURLs s o codes).1.urls c = none) ∧
    (∀ (s : FileStorage) (o : String) (codes : List String) (c : String) (pair : URLPair),
      URLMap.find s.urls c = some pair → pair.userID ≠ o →
      (FileStorage.DeleteUserURLs s o codes).2 = none ∧
      URLMap.find (FileStorage.DeleteUserURLs s o codes).1.urls c = some pair ∧
      (pair.deletedFlag = false →
        FileStorage.GetOriginalURL (FileStorage.DeleteUserURLs s o codes).1 c =
          ⟨pair.originalURL, none⟩)) := by
  refine ⟨?_, ?_, ?_⟩
  · intro s o codes c pair hfind ho
    have h1 := find_deleteMap_foreign o codes hfind ho
    refine ⟨rfl, h1, fun hdel => ?_⟩
    simp [InMemoryStorage.DeleteUserURLs, InMemoryStorage.GetOriginalURL, h1, hdel]
  · intro s o codes c hfind
    exact ⟨rfl, find_deleteMap_none o codes hfind⟩
  · intro s o codes c pair hfind ho
    have h1 := find_deleteMap_foreign o codes hfind ho
    refine ⟨rfl, h1, fun hdel => ?_⟩
    simp [FileStorage.DeleteUserURLs, FileStorage.GetOriginalURL, h1, hdel]

/-- Witness for C7: deleting a foreign code and an absent code leaves the
other owner's record retrievable. -/
theorem claim_C7_witness :
    URLMap.find (InMemoryStorage.DeleteUserURLs
        ⟨[("c1", ⟨"", "c1", "https://example.org/a", "u2", false⟩)]⟩
        "u1" ["c1", "zz"]).1.urls "c1" =
      some ⟨"", "c1", "https://example.org/a", "u2", false⟩ ∧
    InMemoryStorage.GetOriginalURL (InMemoryStorage.DeleteUserURLs
        ⟨[("c1", ⟨"", "c1", "https://example.org/a", "u2", false⟩)]⟩
        "u1" ["c1", "zz"]).1 "c1" = ⟨"https://example.org/a", none⟩ ∧
    URLMap.find (InMemoryStorage.DeleteUserURLs
        ⟨[("c1", ⟨"", "c1", "https://example.org/a", "u2", false⟩)]⟩
        "u1" ["c1", "zz"]).1.urls "zz" = none :=
  ⟨(claim_C7.1 ⟨[("c1", ⟨"", "c1", "https://example.org/a", "u2", false⟩)]⟩ "u1" ["c1", "zz"]
      "c1" ⟨"", "c1", "https://example.org/a", "u2", false⟩ (by decide) (by decide)).2.1,
   (claim_C7.1 ⟨[("c1", ⟨"", "c1", "https://example.org/a", "u2", false⟩)]⟩ "u1" ["c1", "zz"]
      "c1" ⟨"", "c1", "https://example.org/a", "u2", false⟩ (by decide) (by decide)).2.2 rfl,
   (claim_C7.2.1 ⟨[("c1", ⟨"", "c1", "https://example.org/a", "u2", false⟩)]⟩ "u1" ["c1", "zz"]
      "zz" (by decide)).2⟩

/-- Counterexample to C4 as stated: from a fresh memory backend, create a
record, soft-delete it (first conjunct: its flag is now true), then call
`CreateShortURL` while the pseudo-random source reproduces the same
8-character code; the create overwrites the deleted record with a fresh
non-deleted one (second conjunct: the flag is back at false), so a subsequent
operation did make the flag false again. -/
theorem claim_C4_cex :
    URLMap.find
      (InMemoryStorage.DeleteUserURLs
        (InMemoryStorage.CreateShortURL NewInMemoryStorage (List.replicate 8 0) "u1"
          "https://example.org/a").state
        "u1" ["aaaaaaaa"]).1.urls "aaaaaaaa" =
      some ⟨"", "aaaaaaaa", "https://example.org/a", "u1", true⟩ ∧
    URLMap.find
      (InMemoryStorage.CreateShortURL
        (InMemoryStorage.DeleteUserURLs
          (InMemoryStorage.CreateShortURL NewInMemoryStorage (List.replicate 8 0) "u1"
            "https://example.org/a").state
          "u1" ["aaaaaaaa"]).1
        (List.replicate 8 0) "u2" "https://example.org/b").state.urls "aaaaaaaa" =
      some ⟨"", "aaaaaaaa", "https://example.org/b", "u2", false⟩ := by
  constructor <;> decide

/-- C4 (amended): the deleted flag is monotonic under `DeleteUserURLs` (and
reads do not mutate state), and under `CreateShortURL` whenever the freshly
generated code differs from the record's code; a code-colliding create instead
silently replaces the deleted record with a fresh non-deleted one (the silent
overwrite flagged as an open question in the design notes). -/
theorem claim_C4 :
    (∀ (s : InMemoryStorage) (o : String) (ids : List String) (c : String) (pair : URLPair),
      URLMap.find s.urls c = some pair → pair.deletedFlag = true →
      URLMap.find (InMemoryStorage.DeleteUserURLs s o ids).1.urls c = some pair) ∧
    (∀ (s : InMemoryStorage) (g : List Nat) (userID originalURL c : String) (pair : URLPair),
      URLMap.find s.urls c = some pair → pair.deletedFlag = true →
      (generateShortID g).1 ≠ c →
      URLMap.find (InMemoryStorage.CreateShortURL s g userID originalURL).state.urls c =
        some pair) := by
  constructor
  · intro s o ids c pair hfind hdel
    exact find_deleteMap_deleted o ids hfind hdel
  · intro s g userID originalURL c pair hfind hdel hne
    simp [InMemoryStorage.CreateShortURL, URLMap.find_insert, hne, hfind]

/-- Witness for C4 (amended) on a concrete deleted record. -/
theorem claim_C4_witness :
    URLMap.find (InMemoryStorage.DeleteUserURLs
        ⟨[("c1", ⟨"", "c1", "https://example.org/a", "u1", true⟩)]⟩ "u2" ["c1"]).1.urls "c1" =
      some ⟨"", "c1", "https://example.org/a", "u1", true⟩ ∧
    URLMap.find (InMemoryStorage.CreateShortURL
        ⟨[("c1", ⟨"", "c1", "https://example.org/a", "u1", true⟩)]⟩
        (List.replicate 8 0) "u2" "https://example.org/b").state.urls "c1" =
      some ⟨"", "c1", "https://example.org/a", "u1", true⟩ :=
  ⟨claim_C4.1 ⟨[("c1", ⟨"", "c1", "https://example.org/a", "u1", true⟩)]⟩ "u2" ["c1"] "c1"
      ⟨"", "c1", "https://example.org/a", "u1", true⟩ (by decide) rfl,
   claim_C4.2 ⟨[("c1", ⟨"", "c1", "https://example.org/a", "u1", true⟩)]⟩
      (List.replicate 8 0) "u2" "https://example.org/b" "c1"
      ⟨"", "c1", "https://example.org/a", "u1", true⟩ (by decide) rfl (by decide)⟩

/-- Counterexample to C1 as stated: on the memory backend the second create
for the very same URL returns a nil error — no `Conflict` signal is ever
raised — so the claim fails for two of the three backends. -/
theorem claim_C1_cex :
    (InMemoryStorage.CreateShortURL
      (InMemoryStorage.CreateShortURL NewInMemoryStorage (List.replicate 16 0) "u1"
        "https://example.org/a").state
      (InMemoryStorage.CreateShortURL NewInMemoryStorage (List.replicate 16 0) "u1"
        "https://example.org/a").gen
      "u2" "https://example.org/a").err = none := by
  decide

/-- C1 (amended): only the relational backend implements the conflict
protocol. There, if no row for the URL exists and the fresh candidate does
not collide with an existing primary key, the first create inserts and
succeeds, and a second create for the same URL by any owner returns the same
code flagged `Conflict` with the table unchanged. The memory backend's create
never returns any error, and the file backend's returns none whenever the
journal is healthy: neither ever signals `Conflict`. -/
theorem claim_C1 :
    (∀ (db : Database) (g : List Nat) (o1 o2 u : String),
      (∀ r ∈ db, r.originalURL ≠ u) →
      (∀ r ∈ db, r.shortURL ≠ (generateShortID g).1) →
      (DatabaseStorage.CreateShortURL db g o1 u).err = none ∧
      (DatabaseStorage.CreateShortURL
          (DatabaseStorage.CreateShortURL db g o1 u).state
          (DatabaseStorage.CreateShortURL db g o1 u).gen o2 u).shortID =
        (DatabaseStorage.CreateShortURL db g o1 u).shortID ∧
      (DatabaseStorage.CreateShortURL
          (DatabaseStorage.CreateShortURL db g o1 u).state
          (DatabaseStorage.CreateShortURL db g o1 u).gen o2 u).err =
        some (.conflict (DatabaseStorage.CreateShortURL db g o1 u).shortID) ∧
      (DatabaseStorage.CreateShortURL
          (DatabaseStorage.CreateShortURL db g o1 u).state
          (DatabaseStorage.CreateShortURL db g o1 u).gen o2 u).state =
        (DatabaseStorage.CreateShortURL db g o1 u).state) ∧
    (∀ (s : InMemoryStorage) (g : List Nat) (userID originalURL : String),
      (InMemoryStorage.CreateShortURL s g userID originalURL).err = none) ∧
    (∀ (s : FileStorage) (g : List Nat) (userID originalURL : String),
      s.fs.failing = false →
      (FileStorage.CreateShortURL s g userID originalURL).err = none) := by
  refine ⟨?_, fun s g userID originalURL => rfl, ?_⟩
  · intro db g o1 o2 u hno hpk
    rw [dbCreate_insert hno hpk]
    have hfind2 : (db ++ [⟨(generateShortID g).1, u, o1, false⟩] : Database).find?
        (fun r => r.originalURL == u) = some ⟨(generateShortID g).1, u, o1, false⟩ := by
      rw [List.find?_append, List.find?_eq_none.mpr fun r hr => by simp [hno r hr]]
      simp
    rw [dbCreate_conflict hfind2]
    exact ⟨rfl, rfl, rfl, rfl⟩
  · intro s g userID originalURL hf
    rw [fileCreate_of_not_failing hf]

/-- Witness for C1 (amended): on the empty table the second create for the
same URL is flagged `Conflict` with the first call's code. -/
theorem claim_C1_witness :
    (DatabaseStorage.CreateShortURL
        (DatabaseStorage.CreateShortURL [] (List.replicate 8 0) "u1"
          "https://example.org/a").state
        (DatabaseStorage.CreateShortURL [] (List.replicate 8 0) "u1"
          "https://example.org/a").gen
        "u2" "https://example.org/a").err =
      some (.conflict (DatabaseStorage.CreateShortURL [] (List.replicate 8 0) "u1"
        "https://example.org/a").shortID) :=
  (claim_C1.1 [] (List.replicate 8 0) "u1" "u2" "https://example.org/a"
    (by simp) (by simp)).2.2.1

/-- Counterexample to C5 as stated for the `part_019` revision of the file
backend: a create on a fresh backend returns success, yet nothing has been
forced to stable storage — the stable (synced) prefix of the journal is still
empty when success is returned, because this revision's `appendToFile` never
calls `Sync`. -/
theorem claim_C5_cex :
    (FileStorage.CreateShortURL initFileStorage (List.replicate 8 0) "u1"
      "https://example.org/a").err = none ∧
    stableContent (FileStorage.CreateShortURL initFileStorage (List.replicate 8 0) "u1"
      "https://example.org/a").state.fs = [] := by
  constructor <;> decide

/-- C5 (amended): the file backend's `CreateShortURL` returns success only
after the record has been appended as one newline-delimited JSON line, so on
the success path the journal's content is the old content plus exactly the
record just returned (same code, URL and owner); but in the `part_019`
revision the write is not forced (synced) to stable storage — the synced mark
is unchanged. The explicit `Sync` before returning exists only in the
superseded `storage.go` revision of `appendToFile`, where on success the
whole file content, the new record included, is on stable storage. -/
theorem claim_C5 :
    (∀ (s : FileStorage) (g : List Nat) (userID originalURL : String),
      (FileStorage.CreateShortURL s g userID originalURL).err = none →
      (FileStorage.CreateShortURL s g userID originalURL).state.fs.content =
        s.fs.content ++
          [⟨mkUuid s.fs.uuidSeq,
            (FileStorage.CreateShortURL s g userID originalURL).shortID,
            originalURL, userID⟩] ∧
      (FileStorage.CreateShortURL s g userID originalURL).state.fs.synced = s.fs.synced) ∧
    (∀ (fs : FileSystem) (userID shortURL originalURL : String),
      (FileStorageHead.appendToFile fs userID shortURL originalURL).2 = none →
      stableContent (FileStorageHead.appendToFile fs userID shortURL originalURL).1 =
        fs.content ++ [⟨mkUuid fs.uuidSeq, shortURL, originalURL, userID⟩]) := by
  constructor
  · intro s g userID originalURL h
    by_cases hf : s.fs.failing
    · rw [fileCreate_of_failing hf] at h
      simp at h
    · rw [fileCreate_of_not_failing (eq_false_of_ne_true hf)]
      exact ⟨rfl, rfl⟩
  · intro fs userID shortURL originalURL h
    by_cases hf : fs.failing
    · simp [FileStorageHead.appendToFile, hf] at h
    · simp [FileStorageHead.appendToFile, hf, stableContent, encodeRecord]

/-- Witness for C5 (amended) on a fresh journal: the appended line is in the
file content for the `part_019` create, and on stable storage for the
`storage.go` append. -/
theorem claim_C5_witness :
    (FileStorage.CreateShortURL initFileStorage (List.replicate 8 0) "u1"
      "https://example.org/a").state.fs.content =
      [] ++ [⟨mkUuid 0,
        (FileStorage.CreateShortURL initFileStorage (List.replicate 8 0) "u1"
          "https://example.org/a").shortID, "https://example.org/a", "u1"⟩] ∧
    stableContent (FileStorageHead.appendToFile ⟨[], 0, false, 0⟩ "u1" "aaaaaaaa"
      "https://example.org/a").1 =
      [] ++ [⟨mkUuid 0, "aaaaaaaa", "https://example.org/a", "u1"⟩] :=
  ⟨(claim_C5.1 initFileStorage (List.replicate 8 0) "u1" "https://example.org/a"
      (by decide)).1,
   claim_C5.2 ⟨[], 0, false, 0⟩ "u1" "aaaaaaaa" "https://example.org/a" (by decide)⟩

/-- C6: if N creates from a fresh file backend all succeed, the journal holds
exactly N records and replaying it from disk (`loadFromFile`, as a restart
does) rebuilds precisely the in-memory index — the same short-code-to-record
mappings; when the journal's short codes are pairwise distinct the rebuilt
index has exactly N entries. Replay applies records in file order: a record
appended after an earlier one with the same short code overwrites it in the
index, so the last write wins. -/
theorem claim_C6 :
    (∀ (ops : List (String × String)) (g : List Nat) (s' : FileStorage),
      runCreates ops initFileStorage g = some s' →
      FileStorage.loadFromFile s'.fs.content = s'.urls ∧
      s'.fs.content.length = ops.length ∧
      ((s'.fs.content.map FileRecord.shortURL).Nodup → s'.urls.length = ops.length)) ∧
    (∀ (content : List FileRecord) (r : FileRecord),
      URLMap.find (FileStorage.loadFromFile (content ++ [r])) r.shortURL =
        some (decodeRecord r)) := by
  constructor
  · intro ops g s' hrun
    have h := runCreates_inv ops hrun rfl
    have hlen : s'.fs.content.length = ops.length := by
      simpa [initFileStorage] using h.2
    refine ⟨h.1, hlen, fun hnd => ?_⟩
    rw [← h.1]
    unfold FileStorage.loadFromFile
    rw [length_replayInto s'.fs.content [] hnd fun r hr => rfl]
    simpa using hlen
  · intro content r
    rw [loadFromFile_snoc, URLMap.find_insert]
    simp

/-- Witness for C6: two concrete creates, then replay rebuilds the index with
both mappings; and a journal whose two lines share a short code replays to the
later record. -/
theorem claim_C6_witness :
    FileStorage.loadFromFile
        ((runCreates [("u1", "https://example.org/a"), ("u2", "https://example.org/b")]
          initFileStorage
          (List.replicate 8 0 ++ List.replicate 8 1)).getD initFileStorage).fs.content =
      ((runCreates [("u1", "https://example.org/a"), ("u2", "https://example.org/b")]
          initFileStorage
          (List.replicate 8 0 ++ List.replicate 8 1)).getD initFileStorage).urls ∧
    ((runCreates [("u1", "https://example.org/a"), ("u2", "https://example.org/b")]
        initFileStorage
        (List.replicate 8 0 ++ List.replicate 8 1)).getD initFileStorage).urls.length = 2 ∧
    URLMap.find (FileStorage.loadFromFile
        ([⟨"uuid-9", "cccccccc", "https://example.org/x", "u8"⟩] ++
          [⟨"uuid-7", "cccccccc", "https://example.org/z", "u9"⟩])) "cccccccc" =
      some (decodeRecord ⟨"uuid-7", "cccccccc", "https://example.org/z", "u9"⟩) := by
  have hrun : runCreates [("u1", "https://example.org/a"), ("u2", "https://example.org/b")]
      initFileStorage (List.replicate 8 0 ++ List.replicate 8 1) =
      some ((runCreates [("u1", "https://example.org/a"), ("u2", "https://example.org/b")]
        initFileStorage
        (List.replicate 8 0 ++ List.replicate 8 1)).getD initFileStorage) := by decide
  refine ⟨(claim_C6.1 _ _ _ hrun).1, ?_, claim_C6.2
    [⟨"uuid-9", "cccccccc", "https://example.org/x", "u8"⟩]
    ⟨"uuid-7", "cccccccc", "https://example.org/z", "u9"⟩⟩
  exact (claim_C6.1 _ _ _ hrun).2.2 (by decide)

/-- C8: the service's delete-enqueue works over the bounded queue of capacity
100 fixed in `NewURLService`: every outcome of `DeleteURLs` either enqueued
the task at the back of the queue with a nil error (possible only when the
queue had space), or returned the caller's cancellation error with the queue
untouched (possible only when the caller's context was done); and every queue
state reachable from a fresh service under producer and consumer steps holds
at most 100 pending tasks. -/
theorem claim_C8 :
    (∀ (s : URLService) (d : Bool) (t : DeleteTask) (s' : URLService) (r : Option GoError),
      DeleteURLsOutcome s d t s' r →
      s.deleteCh.length ≤ deleteChCapacity →
      s'.deleteCh.length ≤ deleteChCapacity ∧
      ((r = none ∧ s'.deleteCh = s.deleteCh ++ [t] ∧
          s.deleteCh.length < deleteChCapacity) ∨
        (r = some .ctxCanceled ∧ s' = s ∧ d = true))) ∧
    (∀ s : URLService, QueueReachable s → s.deleteCh.length ≤ deleteChCapacity) := by
  have hstep : ∀ (s : URLService) (d : Bool) (t : DeleteTask) (s' : URLService)
      (r : Option GoError),
      DeleteURLsOutcome s d t s' r →
      s.deleteCh.length ≤ deleteChCapacity →
      s'.deleteCh.length ≤ deleteChCapacity ∧
      ((r = none ∧ s'.deleteCh = s.deleteCh ++ [t] ∧
          s.deleteCh.length < deleteChCapacity) ∨
        (r = some .ctxCanceled ∧ s' = s ∧ d = true)) := by
    intro s d t s' r hout hlen
    cases hout with
    | enqueued h =>
        refine ⟨?_, Or.inl ⟨rfl, rfl, h⟩⟩
        simpa using h
    | canceled h => exact ⟨hlen, Or.inr ⟨rfl, rfl, h⟩⟩
  refine ⟨hstep, ?_⟩
  intro s hreach
  induction hreach with
  | init => decide
  | produce hr hout ih => exact (hstep _ _ _ _ _ hout ih).1
  | consume hr ih => exact Nat.le_of_succ_le ih

/-- Witness for C8: one producer step from the fresh service. -/
theorem claim_C8_witness :
    (([DeleteTask.mk "u1" ["c1"]] : List DeleteTask).length ≤ deleteChCapacity ∧
      (((none : Option GoError) = none ∧
          ([DeleteTask.mk "u1" ["c1"]] : List DeleteTask) =
            [] ++ [DeleteTask.mk "u1" ["c1"]] ∧
          ([] : List DeleteTask).length < deleteChCapacity) ∨
        ((none : Option GoError) = some .ctxCanceled ∧
          URLService.mk [DeleteTask.mk "u1" ["c1"]] = NewURLService ∧ false = true))) ∧
    ([DeleteTask.mk "u1" ["c1"]] : List DeleteTask).length ≤ deleteChCapacity :=
  ⟨claim_C8.1 NewURLService false (DeleteTask.mk "u1" ["c1"])
      ⟨NewURLService.deleteCh ++ [DeleteTask.mk "u1" ["c1"]]⟩ none
      (@DeleteURLsOutcome.enqueued NewURLService false (DeleteTask.mk "u1" ["c1"])
        (by decide)) (by decide),
   claim_C8.2 ⟨NewURLService.deleteCh ++ [DeleteTask.mk "u1" ["c1"]]⟩
      (QueueReachable.produce QueueReachable.init
        (@DeleteURLsOutcome.enqueued NewURLService false (DeleteTask.mk "u1" ["c1"])
          (by decide)))⟩

end ShortURL
